import Mathlib

/-!
Shallow embedding of `babysum` (`src/main.rs`): a batch report generator that
sorts infant-care events chronologically, folds them into a date-keyed map of
per-day `Sum` accumulators (with a stateful bottle-session heuristic), and
emits 7-entry sliding-window means.

Modelling conventions:
* `chrono::DateTime<Local>` is a `DateTime` record carrying its calendar date
  (`date`, an abstract day index, as produced by the external `.date()`
  primitive) and its instant `ts` in seconds; `signed_duration_since` is
  `ts` subtraction and `chrono::Duration` values are whole seconds (`Int`),
  matching `Duration::seconds`/`num_seconds`.
* `f32` ounce quantities are modelled as exact rationals `ℚ`.
* `i32`/`i64` counters are modelled as `Int`; Rust integer division truncates
  toward zero, which is `Int.tdiv`.
* `BTreeMap<Date, Sum>` is a key-sorted association list `List (Int × Sum)`
  with the `entry(..).or_insert(Sum::new())` update modelled by `updateMap`.
* `Vec::sort_by_key` (a stable sort by `e.time()`) is `List.mergeSort` on the
  instant.
-/

namespace Babysum

/-- A `chrono::DateTime<Local>`: the day index its `.date()` yields, and the
instant in seconds used for ordering and `signed_duration_since`. -/
structure DateTime where
  date : Int
  ts : Int
deriving DecidableEq, Repr

/-- `babystats::DiaperEvent { time, poo, .. }`. -/
structure DiaperEvent where
  time : DateTime
  poo : Bool
deriving DecidableEq, Repr

/-- `babystats::BottleEvent { time, ounces, .. }`. -/
structure BottleEvent where
  time : DateTime
  ounces : ℚ
deriving DecidableEq, Repr

/-- A breast-feeding record: its time and duration (seconds). -/
structure BreastFeedingEvent where
  time : DateTime
  duration : Int
deriving DecidableEq, Repr

/-- `babystats::FeedingEvent`. -/
inductive FeedingEvent where
  | bottle (e : BottleEvent)
  | leftBreast (e : BreastFeedingEvent)
  | rightBreast (e : BreastFeedingEvent)
deriving DecidableEq, Repr

/-- `FeedingEvent::time()`: the sub-variant's own time field. -/
def FeedingEvent.time : FeedingEvent → DateTime
  | .bottle e => e.time
  | .leftBreast e => e.time
  | .rightBreast e => e.time

/-- `babystats::PumpingEvent`: its start time and derived ounce yield `oz()`. -/
structure PumpingEvent where
  start : DateTime
  oz : ℚ
deriving DecidableEq, Repr

/-- `babystats::TummyTimeEvent { start, duration, .. }`. -/
structure TummyTimeEvent where
  start : DateTime
  duration : Int
deriving DecidableEq, Repr

/-- `babystats::SleepEvent { start, end, duration, .. }`; the end is optional. -/
structure SleepEvent where
  start : DateTime
  end_ : Option DateTime
  duration : Int
deriving DecidableEq, Repr

/-- `babystats::Event`: one case per kind handled by `run`, plus `other` for
the kinds the aggregator's `_ => {}` arm ignores. -/
inductive Event where
  | diaper (e : DiaperEvent)
  | feeding (e : FeedingEvent)
  | pumping (e : PumpingEvent)
  | tummyTime (e : TummyTimeEvent)
  | sleep (e : SleepEvent)
  | other (time : DateTime)
deriving DecidableEq, Repr

/-- `Event::time()`: the event's logical timestamp, used as the sort key. -/
def Event.time : Event → DateTime
  | .diaper e => e.time
  | .feeding e => e.time
  | .pumping e => e.start
  | .tummyTime e => e.start
  | .sleep e => e.start
  | .other t => t

/-- The per-day accumulator `struct Sum`. Durations are in whole seconds. -/
structure Sum where
  total_diapers : Int
  poo_diapers : Int
  bottle_oz : ℚ
  bottle_sessions : Int
  breast_duration : Int
  pumping_oz : ℚ
  tummy_time_duration : Int
  max_sleep_duration : Int
  total_sleep_duration : Int
deriving DecidableEq, Repr

/-- `Sum::new()`: every field zero. -/
def Sum.new : Sum :=
  { total_diapers := 0
    poo_diapers := 0
    bottle_oz := 0
    bottle_sessions := 0
    breast_duration := 0
    pumping_oz := 0
    tummy_time_duration := 0
    max_sleep_duration := 0
    total_sleep_duration := 0 }

/-- Lookup in the date-keyed map (`BTreeMap::get`). -/
def mapGet : List (Int × Sum) → Int → Option Sum
  | [], _ => none
  | (k, v) :: rest, d => if d = k then some v else mapGet rest d

/-- `m.entry(d).or_insert(Sum::new())` followed by mutating the entry with
`f`: inserts `Sum.new` at `d` in key order if absent, then applies `f`. -/
def updateMap : List (Int × Sum) → Int → (Sum → Sum) → List (Int × Sum)
  | [], d, f => [(d, f Sum.new)]
  | (k, v) :: rest, d, f =>
    if d < k then (d, f Sum.new) :: (k, v) :: rest
    else if d = k then (k, f v) :: rest
    else (k, v) :: updateMap rest d f

/-- The aggregator's state: the daily map and the `prev_bottle` register. -/
structure AggState where
  m : List (Int × Sum)
  prev_bottle : Option DateTime
deriving DecidableEq, Repr

/-- The aggregator's initial state: empty map, `prev_bottle` unset. -/
def initState : AggState := { m := [], prev_bottle := none }

/-- The bottle merge test from the Bottle arm:
`prev.date() == bev.time.date() && bev.time.signed_duration_since(prev) >
chrono::Duration::minutes(60)`. -/
def mergeCond (prev_bottle : Option DateTime) (t : DateTime) : Bool :=
  match prev_bottle with
  | some prev => prev.date = t.date ∧ t.ts - prev.ts > 3600
  | none => false

/-- One iteration of the aggregation loop in `run`: the `match event` with one
arm per kind. -/
def processEvent (st : AggState) (e : Event) : AggState :=
  match e with
  | .diaper ev =>
    { st with m := updateMap st.m ev.time.date fun s =>
        { s with
          total_diapers := s.total_diapers + 1
          poo_diapers := if ev.poo then s.poo_diapers + 1 else s.poo_diapers } }
  | .feeding ev =>
    match ev with
    | .bottle bev =>
      { m := updateMap st.m (FeedingEvent.bottle bev).time.date fun s =>
          let s1 := { s with bottle_sessions := s.bottle_sessions + 1 }
          let s2 :=
            if mergeCond st.prev_bottle bev.time then
              { s1 with bottle_sessions := s1.bottle_sessions - 1 }
            else s1
          { s2 with bottle_oz := s2.bottle_oz + bev.ounces }
        prev_bottle := some bev.time }
    | .leftBreast bev =>
      { st with m := updateMap st.m (FeedingEvent.leftBreast bev).time.date fun s =>
          { s with breast_duration := s.breast_duration + bev.duration } }
    | .rightBreast bev =>
      { st with m := updateMap st.m (FeedingEvent.rightBreast bev).time.date fun s =>
          { s with breast_duration := s.breast_duration + bev.duration } }
  | .pumping ev =>
    { st with m := updateMap st.m ev.start.date fun s =>
        { s with pumping_oz := s.pumping_oz + ev.oz } }
  | .tummyTime ev =>
    { st with m := updateMap st.m ev.start.date fun s =>
        { s with tummy_time_duration := s.tummy_time_duration + ev.duration } }
  | .sleep ev =>
    match ev.end_ with
    | some e =>
      { st with m := updateMap st.m e.date fun s =>
          let s1 :=
            if ev.duration > s.max_sleep_duration then
              { s with max_sleep_duration := ev.duration }
            else s
          { s1 with total_sleep_duration := s1.total_sleep_duration + ev.duration } }
    | none => st
  | .other _ => st

/-- Folding the whole (sorted) event list through the aggregation loop. -/
def processEvents (st : AggState) (l : List Event) : AggState :=
  l.foldl processEvent st

/-- `events.sort_by_key(|e| e.time())`: a stable sort ascending by instant. -/
def sortEvents (l : List Event) : List Event :=
  l.mergeSort fun a b => a.time.ts ≤ b.time.ts

/-- `WINDOW_DAYS`, the window size. -/
def WINDOW_DAYS : Nat := 7

/-- `slice::windows(n)`: every contiguous run of `n` consecutive elements,
in order, stride 1; empty when the list is shorter than `n`. -/
def windows (n : Nat) (l : List α) : List (List α) :=
  (List.range (l.length + 1 - n)).map fun i => (l.drop i).take n

/-- The body of the fold inside the windows loop: add every field of the
window entry `x` to the accumulator. -/
def addSum (acc : Sum) (x : Int × Sum) : Sum :=
  { total_diapers := acc.total_diapers + x.2.total_diapers
    poo_diapers := acc.poo_diapers + x.2.poo_diapers
    bottle_oz := acc.bottle_oz + x.2.bottle_oz
    bottle_sessions := acc.bottle_sessions + x.2.bottle_sessions
    breast_duration := acc.breast_duration + x.2.breast_duration
    pumping_oz := acc.pumping_oz + x.2.pumping_oz
    tummy_time_duration := acc.tummy_time_duration + x.2.tummy_time_duration
    max_sleep_duration := acc.max_sleep_duration + x.2.max_sleep_duration
    total_sleep_duration := acc.total_sleep_duration + x.2.total_sleep_duration }

/-- The fold inside the windows loop: componentwise field sums over a window,
starting from `Sum::new()`. -/
def windowFold (w : List (Int × Sum)) : Sum :=
  w.foldl addSum Sum.new

/-- `mean_sum`: the window's field sums divided by `WINDOW_DAYS` — Rust `/` on
`i32`/`i64` (truncating, `Int.tdiv`) for the count fields and the duration
fields (via `num_seconds()`), `f32` division (rational here) for ounces. -/
def mean_sum (w : List (Int × Sum)) : Sum :=
  let sum := windowFold w
  { total_diapers := sum.total_diapers.tdiv (WINDOW_DAYS : Int)
    poo_diapers := sum.poo_diapers.tdiv (WINDOW_DAYS : Int)
    bottle_oz := sum.bottle_oz / (WINDOW_DAYS : ℚ)
    bottle_sessions := sum.bottle_sessions.tdiv (WINDOW_DAYS : Int)
    breast_duration := sum.breast_duration.tdiv (WINDOW_DAYS : Int)
    pumping_oz := sum.pumping_oz / (WINDOW_DAYS : ℚ)
    tummy_time_duration := sum.tummy_time_duration.tdiv (WINDOW_DAYS : Int)
    max_sleep_duration := sum.max_sleep_duration.tdiv (WINDOW_DAYS : Int)
    total_sleep_duration := sum.total_sleep_duration.tdiv (WINDOW_DAYS : Int) }

/-- The windows loop of `run`: one `(label date, mean Sum)` per window, the
label being the window's last entry's date (`window.last()`). -/
def runWindows (m : List (Int × Sum)) : List (Int × Sum) :=
  (windows WINDOW_DAYS m).filterMap fun w =>
    w.getLast?.map fun p => (p.1, mean_sum w)

/-- The whole pipeline of `run` up to output: sort, aggregate, window. -/
def run (events : List Event) : List (Int × Sum) :=
  runWindows (processEvents initState (sortEvents events)).m

/-- Whether `e` is a bottle-feeding event whose time falls on date `d`. -/
def isBottleOn (d : Int) : Event → Bool
  | .feeding (.bottle bev) => bev.time.date = d
  | _ => false

/-- Number of bottle-feeding events in `l` whose time falls on date `d`. -/
def bottleCount (l : List Event) (d : Int) : Nat :=
  (l.filter (isBottleOn d)).length

/-- One token of the `Display` output of `FormattedDuration`:
`write!("{}h" | "{}m" | "{}s")`. -/
inductive DurToken where
  | hours (n : Int)
  | minutes (n : Int)
  | seconds (n : Int)
deriving DecidableEq, Repr

/-- `Display for FormattedDuration` on a duration of `d` whole seconds, as the
list of tokens it writes: hours only when positive, minutes when minutes or
hours is positive, seconds always (Rust `i64` division is `Int.tdiv`). -/
def formattedDuration (d : Int) : List DurToken :=
  let secs0 := d
  let hours := secs0.tdiv 3600
  let out1 : List DurToken := if hours > 0 then [.hours hours] else []
  let secs1 := secs0 - hours * 3600
  let minutes := secs1.tdiv 60
  let out2 : List DurToken :=
    if minutes > 0 ∨ hours > 0 then [.minutes minutes] else []
  let secs2 := secs1 - minutes * 60
  out1 ++ out2 ++ [.seconds secs2]

/-- The `BTreeMap` representation invariant: keys strictly ascending. -/
def keySorted (m : List (Int × Sum)) : Prop :=
  m.Pairwise fun a b => a.1 < b.1

theorem mapGet_eq_none (m : List (Int × Sum)) (d : Int)
    (h : ∀ kv ∈ m, kv.1 ≠ d) : mapGet m d = none := by
  induction m with
  | nil => rfl
  | cons kv rest ih =>
    obtain ⟨k, v⟩ := kv
    have hk : k ≠ d := h (k, v) (List.mem_cons_self _ _)
    have hdk : ¬ d = k := fun hdk => hk hdk.symm
    simp only [mapGet]
    rw [if_neg hdk]
    exact ih fun kv hkv => h kv (List.mem_cons_of_mem _ hkv)

theorem fst_mem_updateMap (m : List (Int × Sum)) (d : Int) (f : Sum → Sum) :
    ∀ kv ∈ updateMap m d f, kv.1 = d ∨ kv.1 ∈ m.map Prod.fst := by
  induction m with
  | nil =>
    intro kv hkv
    simp only [updateMap, List.mem_singleton] at hkv
    subst hkv
    exact Or.inl rfl
  | cons p rest ih =>
    obtain ⟨k, v⟩ := p
    intro kv hkv
    simp only [updateMap] at hkv
    by_cases h1 : d < k
    · rw [if_pos h1] at hkv
      rcases List.mem_cons.mp hkv with heq | hkv'
      · subst heq; exact Or.inl rfl
      · rcases List.mem_cons.mp hkv' with heq | hkv''
        · subst heq; exact Or.inr (by simp)
        · exact Or.inr (by simp [List.mem_map]; exact Or.inr ⟨kv.2, by simpa using hkv''⟩)
    · rw [if_neg h1] at hkv
      by_cases h2 : d = k
      · rw [if_pos h2] at hkv
        rcases List.mem_cons.mp hkv with heq | hkv'
        · subst heq; exact Or.inl h2.symm
        · exact Or.inr (by simp [List.mem_map]; exact Or.inr ⟨kv.2, by simpa using hkv'⟩)
      · rw [if_neg h2] at hkv
        rcases List.mem_cons.mp hkv with heq | hkv'
        · subst heq; exact Or.inr (by simp)
        · rcases ih kv hkv' with h3 | h3
          · exact Or.inl h3
          · exact Or.inr (by simp [List.mem_map] at h3 ⊢; exact Or.inr h3)

theorem keySorted_updateMap (m : List (Int × Sum)) (d : Int) (f : Sum → Sum)
    (h : keySorted m) : keySorted (updateMap m d f) := by
  induction m with
  | nil => simp [updateMap, keySorted]
  | cons p rest ih =>
    obtain ⟨k, v⟩ := p
    rw [keySorted, List.pairwise_cons] at h
    obtain ⟨hhead, htail⟩ := h
    simp only [updateMap]
    by_cases h1 : d < k
    · rw [if_pos h1]
      refine List.Pairwise.cons ?_ (List.Pairwise.cons hhead htail)
      intro kv hkv
      rcases List.mem_cons.mp hkv with heq | hmem
      · subst heq; exact h1
      · exact lt_trans h1 (hhead kv hmem)
    · rw [if_neg h1]
      by_cases h2 : d = k
      · rw [if_pos h2]
        exact List.Pairwise.cons hhead htail
      · rw [if_neg h2]
        refine List.Pairwise.cons ?_ (ih htail)
        intro kv hkv
        rcases fst_mem_updateMap rest d f kv hkv with h3 | h3
        · rw [h3]; omega
        · rcases List.mem_map.mp h3 with ⟨kv', hkv', hfst⟩
          rw [← hfst]
          exact hhead kv' hkv'

theorem mapGet_updateMap_self (m : List (Int × Sum)) (d : Int) (f : Sum → Sum)
    (h : keySorted m) :
    mapGet (updateMap m d f) d = some (f ((mapGet m d).getD Sum.new)) := by
  induction m with
  | nil => simp [updateMap, mapGet]
  | cons p rest ih =>
    obtain ⟨k, v⟩ := p
    rw [keySorted, List.pairwise_cons] at h
    obtain ⟨hhead, htail⟩ := h
    simp only [updateMap]
    by_cases h1 : d < k
    · rw [if_pos h1]
      have hrest : mapGet rest d = none := by
        refine mapGet_eq_none rest d fun kv hkv => ?_
        have := hhead kv hkv
        omega
      simp [mapGet, if_neg (by omega : ¬ d = k), hrest]
    · rw [if_neg h1]
      by_cases h2 : d = k
      · subst h2
        simp [mapGet]
      · rw [if_neg h2]
        simp [mapGet, if_neg h2, ih htail]

theorem mapGet_updateMap_ne (m : List (Int × Sum)) (d d' : Int) (f : Sum → Sum)
    (h : d' ≠ d) : mapGet (updateMap m d f) d' = mapGet m d' := by
  induction m with
  | nil => simp [updateMap, mapGet, if_neg h]
  | cons p rest ih =>
    obtain ⟨k, v⟩ := p
    simp only [updateMap]
    by_cases h1 : d < k
    · rw [if_pos h1]
      simp [mapGet, if_neg h]
    · rw [if_neg h1]
      by_cases h2 : d = k
      · subst h2
        simp [mapGet, if_neg h]
      · rw [if_neg h2]
        by_cases h3 : d' = k
        · simp [mapGet, if_pos h3]
        · simp [mapGet, if_neg h3, ih]

theorem keySorted_processEvent (st : AggState) (e : Event)
    (h : keySorted st.m) : keySorted (processEvent st e).m := by
  cases e with
  | diaper ev => exact keySorted_updateMap _ _ _ h
  | feeding ev =>
    cases ev with
    | bottle bev => exact keySorted_updateMap _ _ _ h
    | leftBreast bev => exact keySorted_updateMap _ _ _ h
    | rightBreast bev => exact keySorted_updateMap _ _ _ h
  | pumping ev => exact keySorted_updateMap _ _ _ h
  | tummyTime ev => exact keySorted_updateMap _ _ _ h
  | sleep ev =>
    cases hend : ev.end_ with
    | some dt => simpa [processEvent, hend] using keySorted_updateMap _ _ _ h
    | none => simpa [processEvent, hend] using h
  | other t => simpa [processEvent] using h

theorem keySorted_processEvents (st : AggState) (l : List Event)
    (h : keySorted st.m) : keySorted (processEvents st l).m := by
  induction l generalizing st with
  | nil => exact h
  | cons e rest ih => exact ih _ (keySorted_processEvent st e h)

theorem processEvents_append (st : AggState) (l₁ l₂ : List Event) :
    processEvents st (l₁ ++ l₂) = processEvents (processEvents st l₁) l₂ :=
  List.foldl_append ..

theorem ite_gt_eq_max (a b : Int) : (if b > a then b else a) = max a b := by
  rcases le_or_lt b a with h | h
  · rw [if_neg (not_lt.mpr h), max_eq_left h]
  · rw [if_pos h, max_eq_right (le_of_lt h)]

/-- C5: For every sleep event whose end time is absent, aggregation leaves the
Daily Map entirely unchanged — the whole aggregator state is untouched, so no
entry is created for any date and no `total_sleep_duration` or
`max_sleep_duration` field of any existing entry is affected. -/
theorem C5_sleep_without_end_is_noop (st : AggState) (ev : SleepEvent)
    (h : ev.end_ = none) : processEvent st (Event.sleep ev) = st := by
  simp [processEvent, h]

/-- Witness for C5 at a concrete state and a concrete endless sleep event. -/
theorem C5_sleep_without_end_is_noop_witness :
    processEvent initState (Event.sleep ⟨⟨0, 0⟩, none, 100⟩) = initState :=
  C5_sleep_without_end_is_noop initState ⟨⟨0, 0⟩, none, 100⟩ rfl

/-- C6: Every sleep event with an end time is bucketed by its end date; that
day's `max_sleep_duration` becomes the larger of the current max and the
session's duration (a tie keeps the existing value, which equals the max) and
the duration is added to `total_sleep_duration`; entries of every other date
are untouched; and for sleep durations [3600, 7200, 1800] seconds ending on
one day, `max_sleep_duration` is 7200 and `total_sleep_duration` is 12600. -/
theorem C6_sleep_with_end_bucketed_by_end_date (st : AggState) (ev : SleepEvent)
    (dt : DateTime) (hend : ev.end_ = some dt) (hm : keySorted st.m) :
    (mapGet (processEvent st (Event.sleep ev)).m dt.date =
      some { (mapGet st.m dt.date).getD Sum.new with
        max_sleep_duration :=
          max ((mapGet st.m dt.date).getD Sum.new).max_sleep_duration ev.duration
        total_sleep_duration :=
          ((mapGet st.m dt.date).getD Sum.new).total_sleep_duration + ev.duration })
    ∧ (∀ d, d ≠ dt.date →
        mapGet (processEvent st (Event.sleep ev)).m d = mapGet st.m d)
    ∧ ((mapGet (processEvents initState
          [Event.sleep ⟨⟨0, 0⟩, some ⟨0, 3600⟩, 3600⟩,
           Event.sleep ⟨⟨0, 4000⟩, some ⟨0, 11200⟩, 7200⟩,
           Event.sleep ⟨⟨0, 12000⟩, some ⟨0, 13800⟩, 1800⟩]).m 0).map
            Sum.max_sleep_duration = some 7200
      ∧ (mapGet (processEvents initState
          [Event.sleep ⟨⟨0, 0⟩, some ⟨0, 3600⟩, 3600⟩,
           Event.sleep ⟨⟨0, 4000⟩, some ⟨0, 11200⟩, 7200⟩,
           Event.sleep ⟨⟨0, 12000⟩, some ⟨0, 13800⟩, 1800⟩]).m 0).map
            Sum.total_sleep_duration = some 12600) := by
  refine ⟨?_, ?_, by decide, by decide⟩
  · simp only [processEvent, hend]
    rw [mapGet_updateMap_self st.m dt.date _ hm]
    by_cases hgt : ev.duration > ((mapGet st.m dt.date).getD Sum.new).max_sleep_duration
    · simp only [if_pos hgt]
      rw [max_eq_right (le_of_lt hgt)]
    · simp only [if_neg hgt]
      rw [max_eq_left (not_lt.mp hgt)]
  · intro d hd
    simp only [processEvent, hend]
    exact mapGet_updateMap_ne st.m dt.date d _ hd

/-- Witness for C6 at a concrete state and sleep event with an end time. -/
theorem C6_sleep_with_end_bucketed_by_end_date_witness :
    (⟨⟨5, 10⟩, some ⟨3, 900⟩, 600⟩ : SleepEvent).end_ = some ⟨3, 900⟩
    ∧ keySorted initState.m
    ∧ (mapGet (processEvent initState
        (Event.sleep ⟨⟨5, 10⟩, some ⟨3, 900⟩, 600⟩)).m 3 =
          some { Sum.new with max_sleep_duration := 600, total_sleep_duration := 600 }) := by
  refine ⟨rfl, List.Pairwise.nil, ?_⟩
  have h := (C6_sleep_with_end_bucketed_by_end_date initState
    ⟨⟨5, 10⟩, some ⟨3, 900⟩, 600⟩ ⟨3, 900⟩ rfl List.Pairwise.nil).1
  simpa using h

theorem bottle_step_prev (st : AggState) (bev : BottleEvent) :
    (processEvent st (Event.feeding (FeedingEvent.bottle bev))).prev_bottle =
      some bev.time := rfl

theorem bottle_step_self (st : AggState) (bev : BottleEvent) (hm : keySorted st.m) :
    mapGet (processEvent st (Event.feeding (FeedingEvent.bottle bev))).m
        bev.time.date =
      some { (mapGet st.m bev.time.date).getD Sum.new with
        bottle_sessions :=
          ((mapGet st.m bev.time.date).getD Sum.new).bottle_sessions +
            (if mergeCond st.prev_bottle bev.time then 0 else 1)
        bottle_oz :=
          ((mapGet st.m bev.time.date).getD Sum.new).bottle_oz + bev.ounces } := by
  simp only [processEvent, FeedingEvent.time]
  rw [mapGet_updateMap_self st.m _ _ hm]
  by_cases h : mergeCond st.prev_bottle bev.time
  · simp [h, Sum.mk.injEq]
  · simp [h, Sum.mk.injEq]

theorem bottle_step_other (st : AggState) (bev : BottleEvent) (d : Int)
    (hd : d ≠ bev.time.date) :
    mapGet (processEvent st (Event.feeding (FeedingEvent.bottle bev))).m d =
      mapGet st.m d := by
  simp only [processEvent, FeedingEvent.time]
  exact mapGet_updateMap_ne st.m _ d _ hd

/-- C2: For every bottle feeding, the aggregator nets `+1` on that day's
`bottle_sessions` except that the increment is undone (net `+0`) exactly when
`prev_bottle` is set, has the same calendar date as the event, and the gap
strictly exceeds 60 minutes (3600 s); `bottle_oz` grows unconditionally;
other dates' entries are untouched; `prev_bottle` becomes the event's time
unconditionally, the merge test having been evaluated against the pre-update
value; and two bottles on different calendar dates count one session each
regardless of elapsed time. -/
theorem C2_bottle_merge_exactly_on_same_date_gap_over_60min
    (st : AggState) (bev : BottleEvent) (hm : keySorted st.m) :
    ((processEvent st (Event.feeding (FeedingEvent.bottle bev))).prev_bottle =
      some bev.time)
    ∧ (mapGet (processEvent st (Event.feeding (FeedingEvent.bottle bev))).m
          bev.time.date =
        some { (mapGet st.m bev.time.date).getD Sum.new with
          bottle_sessions :=
            ((mapGet st.m bev.time.date).getD Sum.new).bottle_sessions +
              (if mergeCond st.prev_bottle bev.time then 0 else 1)
          bottle_oz :=
            ((mapGet st.m bev.time.date).getD Sum.new).bottle_oz + bev.ounces })
    ∧ (∀ d, d ≠ bev.time.date →
        mapGet (processEvent st (Event.feeding (FeedingEvent.bottle bev))).m d =
          mapGet st.m d)
    ∧ (mergeCond st.prev_bottle bev.time = true ↔
        ∃ prev, st.prev_bottle = some prev ∧ prev.date = bev.time.date ∧
          bev.time.ts - prev.ts > 3600)
    ∧ (∀ b1 b2 : BottleEvent, b1.time.date ≠ b2.time.date →
        (mapGet (processEvents initState
            [Event.feeding (FeedingEvent.bottle b1),
             Event.feeding (FeedingEvent.bottle b2)]).m b1.time.date).map
          Sum.bottle_sessions = some 1
        ∧ (mapGet (processEvents initState
            [Event.feeding (FeedingEvent.bottle b1),
             Event.feeding (FeedingEvent.bottle b2)]).m b2.time.date).map
          Sum.bottle_sessions = some 1) := by
  refine ⟨bottle_step_prev st bev, bottle_step_self st bev hm,
    fun d hd => bottle_step_other st bev d hd, ?_, ?_⟩
  · cases hp : st.prev_bottle with
    | none => simp [mergeCond]
    | some prev => simp [mergeCond, hp]
  · intro b1 b2 hd
    have hm0 : keySorted initState.m := List.Pairwise.nil
    have hm1 : keySorted (processEvent initState
        (Event.feeding (FeedingEvent.bottle b1))).m :=
      keySorted_processEvent _ _ hm0
    have h1self := bottle_step_self initState b1 hm0
    have h1none : mapGet initState.m b1.time.date = none := rfl
    rw [h1none] at h1self
    have hmc1 : mergeCond initState.prev_bottle b1.time = false := rfl
    rw [hmc1] at h1self
    have h2prev : (processEvent initState
        (Event.feeding (FeedingEvent.bottle b1))).prev_bottle = some b1.time :=
      bottle_step_prev _ _
    have h2other : mapGet (processEvent initState
        (Event.feeding (FeedingEvent.bottle b1))).m b2.time.date =
        mapGet initState.m b2.time.date :=
      bottle_step_other _ _ _ (Ne.symm hd)
    have h2self := bottle_step_self (processEvent initState
        (Event.feeding (FeedingEvent.bottle b1))) b2 hm1
    rw [h2other] at h2self
    have hmc2 : mergeCond (processEvent initState
        (Event.feeding (FeedingEvent.bottle b1))).prev_bottle b2.time = false := by
      rw [h2prev]
      simp [mergeCond, hd]
    rw [hmc2] at h2self
    have h3other : mapGet (processEvent (processEvent initState
          (Event.feeding (FeedingEvent.bottle b1)))
          (Event.feeding (FeedingEvent.bottle b2))).m b1.time.date =
        mapGet (processEvent initState
          (Event.feeding (FeedingEvent.bottle b1))).m b1.time.date :=
      bottle_step_other _ _ _ hd
    have hunf : processEvents initState
        [Event.feeding (FeedingEvent.bottle b1),
         Event.feeding (FeedingEvent.bottle b2)] =
        processEvent (processEvent initState
          (Event.feeding (FeedingEvent.bottle b1)))
          (Event.feeding (FeedingEvent.bottle b2)) := rfl
    rw [hunf]
    constructor
    · rw [h3other, h1self]
      rfl
    · rw [h2self]
      rfl

/-- Witness for C2 at a concrete state and bottle event. -/
theorem C2_bottle_merge_witness :
    keySorted initState.m
    ∧ (processEvent initState
        (Event.feeding (FeedingEvent.bottle ⟨⟨1, 50⟩, 3⟩))).prev_bottle =
        some ⟨1, 50⟩ := by
  refine ⟨List.Pairwise.nil, ?_⟩
  exact (C2_bottle_merge_exactly_on_same_date_gap_over_60min initState
    ⟨⟨1, 50⟩, 3⟩ List.Pairwise.nil).1

/-- C1 counterexample: bottles on day 0 at 0 s, 1800 s (T+30 min) and 5400 s
(T+90 min). The claim predicts net increments +1, +0, +1 and a final
`bottle_sessions` of 2; the code nets +1 on the second event (running count 2,
not 1) and +1 on the third (its gap from the previous bottle is exactly 60
minutes, not strictly more), ending at 3, not 2. -/
theorem C1_counterexample_running_counts :
    (mapGet (processEvents initState
        [Event.feeding (FeedingEvent.bottle ⟨⟨0, 0⟩, 1⟩),
         Event.feeding (FeedingEvent.bottle ⟨⟨0, 1800⟩, 1⟩)]).m 0).map
      Sum.bottle_sessions = some 2
    ∧ (2 : Int) ≠ 1
    ∧ (mapGet (processEvents initState
        [Event.feeding (FeedingEvent.bottle ⟨⟨0, 0⟩, 1⟩),
         Event.feeding (FeedingEvent.bottle ⟨⟨0, 1800⟩, 1⟩),
         Event.feeding (FeedingEvent.bottle ⟨⟨0, 5400⟩, 1⟩)]).m 0).map
      Sum.bottle_sessions = some 3
    ∧ (3 : Int) ≠ 2 := by
  exact ⟨by decide, by decide, by decide, by decide⟩

/-- C1 (amended): for three bottle feedings on the same calendar day at times
T, T+30 min and T+90 min (and no other bottles), the consecutive gaps are 30
and 60 minutes, neither strictly over 60 minutes, so the decrement never
fires: the per-event net increments are +1, +1, +1 (running counts 1, 2, 3)
and the aggregated `bottle_sessions` for that day is 3; this event order is
the chronologically sorted one. -/
theorem C1_three_bottles_same_day (d t : Int) (oz1 oz2 oz3 : ℚ) :
    (sortEvents
        [Event.feeding (FeedingEvent.bottle ⟨⟨d, t⟩, oz1⟩),
         Event.feeding (FeedingEvent.bottle ⟨⟨d, t + 1800⟩, oz2⟩),
         Event.feeding (FeedingEvent.bottle ⟨⟨d, t + 5400⟩, oz3⟩)] =
      [Event.feeding (FeedingEvent.bottle ⟨⟨d, t⟩, oz1⟩),
       Event.feeding (FeedingEvent.bottle ⟨⟨d, t + 1800⟩, oz2⟩),
       Event.feeding (FeedingEvent.bottle ⟨⟨d, t + 5400⟩, oz3⟩)])
    ∧ (mapGet (processEvents initState
        [Event.feeding (FeedingEvent.bottle ⟨⟨d, t⟩, oz1⟩)]).m d).map
        Sum.bottle_sessions = some 1
    ∧ (mapGet (processEvents initState
        [Event.feeding (FeedingEvent.bottle ⟨⟨d, t⟩, oz1⟩),
         Event.feeding (FeedingEvent.bottle ⟨⟨d, t + 1800⟩, oz2⟩)]).m d).map
        Sum.bottle_sessions = some 2
    ∧ (mapGet (processEvents initState
        [Event.feeding (FeedingEvent.bottle ⟨⟨d, t⟩, oz1⟩),
         Event.feeding (FeedingEvent.bottle ⟨⟨d, t + 1800⟩, oz2⟩),
         Event.feeding (FeedingEvent.bottle ⟨⟨d, t + 5400⟩, oz3⟩)]).m d).map
        Sum.bottle_sessions = some 3 := by
  refine ⟨?_, ?_, ?_, ?_⟩
  · refine List.mergeSort_of_sorted ?_
    refine List.Pairwise.cons ?_ (List.Pairwise.cons ?_
      (List.Pairwise.cons ?_ List.Pairwise.nil))
    · intro a ha
      rcases List.mem_cons.mp ha with rfl | ha
      · simp only [Event.time, FeedingEvent.time, decide_eq_true_eq]
        omega
      · rcases List.mem_cons.mp ha with rfl | ha
        · simp only [Event.time, FeedingEvent.time, decide_eq_true_eq]
          omega
        · exact absurd ha (List.not_mem_nil a)
    · intro a ha
      rcases List.mem_cons.mp ha with rfl | ha
      · simp only [Event.time, FeedingEvent.time, decide_eq_true_eq]
        omega
      · exact absurd ha (List.not_mem_nil a)
    · intro a ha
      exact absurd ha (List.not_mem_nil a)
  · simp [processEvents, processEvent, updateMap, mapGet, mergeCond, initState,
      FeedingEvent.time, Sum.new]
  · simp [processEvents, processEvent, updateMap, mapGet, mergeCond, initState,
      FeedingEvent.time, Sum.new]
  · simp [processEvents, processEvent, updateMap, mapGet, mergeCond, initState,
      FeedingEvent.time, Sum.new]

/-- Recognizer for the `"{}h"` token. -/
def DurToken.isHours : DurToken → Bool
  | .hours _ => true
  | _ => false

/-- Recognizer for the `"{}m"` token. -/
def DurToken.isMinutes : DurToken → Bool
  | .minutes _ => true
  | _ => false

/-- Recognizer for the `"{}s"` token. -/
def DurToken.isSeconds : DurToken → Bool
  | .seconds _ => true
  | _ => false

/-- C9 counterexample: at duration -3700 s, hours = -1 and minutes = -1 are
both nonzero, so the claim requires a minutes token — but the formatter's
conditions test positivity, not nonzeroness, and it writes only `-40s`. -/
theorem C9_counterexample_negative_duration :
    formattedDuration (-3700) = [DurToken.seconds (-40)]
    ∧ (-3700 : Int).tdiv 3600 ≠ 0
    ∧ ((-3700 : Int) - (-3700 : Int).tdiv 3600 * 3600).tdiv 60 ≠ 0
    ∧ (formattedDuration (-3700)).any DurToken.isMinutes = false := by
  exact ⟨by decide, by decide, by decide, by decide⟩

/-- C9 (amended): for every duration, the formatter emits the hours token
exactly when the hours component is positive, the minutes token exactly when
the hours or the minutes component is positive, and always the seconds token
(for nonnegative durations "positive" coincides with the claim's "nonzero"). -/
theorem C9_formatter_token_conditions (dur : Int) :
    ((formattedDuration dur).any DurToken.isHours ↔ dur.tdiv 3600 > 0)
    ∧ ((formattedDuration dur).any DurToken.isMinutes ↔
        (dur - dur.tdiv 3600 * 3600).tdiv 60 > 0 ∨ dur.tdiv 3600 > 0)
    ∧ (formattedDuration dur).any DurToken.isSeconds = true := by
  simp only [formattedDuration]
  by_cases h1 : dur.tdiv 3600 > 0 <;>
    by_cases h2 : (dur - dur.tdiv 3600 * 3600).tdiv 60 > 0 <;>
    simp [h1, h2, DurToken.isHours, DurToken.isMinutes, DurToken.isSeconds]

/-- C7: the sorter returns a permutation of its input that is ordered by
timestamp ascending, and for each fixed timestamp the events carrying it keep
their original relative order (stability, stated as: filtering the output to
any one timestamp gives exactly the same-ordered filtering of the input). -/
theorem C7_sort_by_time_stable (l : List Event) :
    (sortEvents l).Perm l
    ∧ (sortEvents l).Pairwise (fun a b => a.time.ts ≤ b.time.ts)
    ∧ (∀ k : Int, (sortEvents l).filter (fun e => e.time.ts = k) =
        l.filter fun e => e.time.ts = k) := by
  have trans : ∀ a b c : Event,
      (decide (a.time.ts ≤ b.time.ts)) = true →
      (decide (b.time.ts ≤ c.time.ts)) = true →
      (decide (a.time.ts ≤ c.time.ts)) = true := by
    intro a b c hab hbc
    simp only [decide_eq_true_eq] at hab hbc ⊢
    omega
  have total : ∀ a b : Event,
      ((decide (a.time.ts ≤ b.time.ts)) || (decide (b.time.ts ≤ a.time.ts))) = true := by
    intro a b
    simp only [Bool.or_eq_true, decide_eq_true_eq]
    omega
  refine ⟨List.mergeSort_perm l _, ?_, ?_⟩
  · have h := List.sorted_mergeSort trans total l
    exact h.imp fun hab => by simpa using hab
  · intro k
    have hsub : List.Sublist (l.filter fun e => e.time.ts = k) l :=
      List.filter_sublist l
    have hpw : (l.filter fun e => e.time.ts = k).Pairwise
        fun a b => (decide (a.time.ts ≤ b.time.ts)) = true := by
      refine List.pairwise_of_forall_mem_list ?_
      intro a ha b hb
      have ha' := (List.mem_filter.mp ha).2
      have hb' := (List.mem_filter.mp hb).2
      simp only [decide_eq_true_eq] at ha' hb' ⊢
      omega
    have hsub2 : List.Sublist (l.filter fun e => e.time.ts = k) (sortEvents l) :=
      List.sublist_mergeSort trans total hpw hsub
    have hsub3 : List.Sublist (l.filter fun e => e.time.ts = k)
        ((sortEvents l).filter fun e => e.time.ts = k) := by
      have := hsub2.filter fun e => decide (e.time.ts = k)
      simpa using this
    have hlen : ((sortEvents l).filter fun e => e.time.ts = k).length =
        (l.filter fun e => e.time.ts = k).length :=
      ((List.mergeSort_perm l _).filter _).length_eq
    exact (hsub3.eq_of_length hlen.symm).symm

theorem foldl_addSum_fields (w : List (Int × Sum)) (acc : Sum) :
    w.foldl addSum acc =
      { total_diapers := acc.total_diapers + (w.map fun p => p.2.total_diapers).sum
        poo_diapers := acc.poo_diapers + (w.map fun p => p.2.poo_diapers).sum
        bottle_oz := acc.bottle_oz + (w.map fun p => p.2.bottle_oz).sum
        bottle_sessions :=
          acc.bottle_sessions + (w.map fun p => p.2.bottle_sessions).sum
        breast_duration :=
          acc.breast_duration + (w.map fun p => p.2.breast_duration).sum
        pumping_oz := acc.pumping_oz + (w.map fun p => p.2.pumping_oz).sum
        tummy_time_duration :=
          acc.tummy_time_duration + (w.map fun p => p.2.tummy_time_duration).sum
        max_sleep_duration :=
          acc.max_sleep_duration + (w.map fun p => p.2.max_sleep_duration).sum
        total_sleep_duration :=
          acc.total_sleep_duration + (w.map fun p => p.2.total_sleep_duration).sum } := by
  induction w generalizing acc with
  | nil =>
    cases acc
    simp
  | cons p rest ih =>
    simp [List.foldl_cons, ih, addSum, Sum.mk.injEq, add_assoc]

theorem windowFold_fields (w : List (Int × Sum)) :
    windowFold w =
      { total_diapers := (w.map fun p => p.2.total_diapers).sum
        poo_diapers := (w.map fun p => p.2.poo_diapers).sum
        bottle_oz := (w.map fun p => p.2.bottle_oz).sum
        bottle_sessions := (w.map fun p => p.2.bottle_sessions).sum
        breast_duration := (w.map fun p => p.2.breast_duration).sum
        pumping_oz := (w.map fun p => p.2.pumping_oz).sum
        tummy_time_duration := (w.map fun p => p.2.tummy_time_duration).sum
        max_sleep_duration := (w.map fun p => p.2.max_sleep_duration).sum
        total_sleep_duration := (w.map fun p => p.2.total_sleep_duration).sum } := by
  rw [windowFold, foldl_addSum_fields]
  simp [Sum.new]

/-- Test fixture: 7 daily entries whose `total_diapers` are [2,3,1,4,2,0,5]
and whose other fields are zero. -/
def diapersWindow : List (Int × Sum) :=
  [(0, { Sum.new with total_diapers := 2 }),
   (1, { Sum.new with total_diapers := 3 }),
   (2, { Sum.new with total_diapers := 1 }),
   (3, { Sum.new with total_diapers := 4 }),
   (4, { Sum.new with total_diapers := 2 }),
   (5, { Sum.new with total_diapers := 0 }),
   (6, { Sum.new with total_diapers := 5 })]

/-- Test fixture: 7 daily entries whose `breast_duration` seconds sum to 10. -/
def breastWindow : List (Int × Sum) :=
  [(0, { Sum.new with breast_duration := 10 }),
   (1, Sum.new), (2, Sum.new), (3, Sum.new),
   (4, Sum.new), (5, Sum.new), (6, Sum.new)]

/-- C3 counterexample: the claim assigns real division to the duration fields,
but the code divides the summed whole seconds by 7 with integer division: on a
window whose `breast_duration` seconds sum to 10, the emitted mean is 1 s,
not the real quotient 10/7 s. -/
theorem C3_counterexample_duration_division :
    (mean_sum breastWindow).breast_duration = 1
    ∧ (mean_sum breastWindow).breast_duration = Int.tdiv 10 7
    ∧ (breastWindow.map (fun p => p.2.breast_duration)).sum = 10
    ∧ (((mean_sum breastWindow).breast_duration : ℚ) ≠ (10 : ℚ) / 7) := by
  have h1 : (mean_sum breastWindow).breast_duration = 1 := by decide
  refine ⟨h1, by decide, by decide, ?_⟩
  rw [h1]
  norm_num

/-- C3 (amended): for every window of 7 consecutive daily entries, each field
of the emitted `WindowMean` is the sum of that field over the 7 entries
divided by 7 — integer (truncating) division for the count fields AND for the
duration fields (whole seconds), real division only for the volume fields —
and 7 entries with `total_diapers` [2,3,1,4,2,0,5] yield mean `total_diapers`
17/7 under integer division, i.e. 2. -/
theorem C3_window_mean_is_fieldwise_sum_div_7 (w : List (Int × Sum))
    (hw : w.length = WINDOW_DAYS) :
    (mean_sum w =
      { total_diapers :=
          ((w.map (fun p : Int × Sum => p.2.total_diapers)).sum).tdiv 7
        poo_diapers :=
          ((w.map (fun p : Int × Sum => p.2.poo_diapers)).sum).tdiv 7
        bottle_oz := ((w.map (fun p : Int × Sum => p.2.bottle_oz)).sum) / 7
        bottle_sessions :=
          ((w.map (fun p : Int × Sum => p.2.bottle_sessions)).sum).tdiv 7
        breast_duration :=
          ((w.map (fun p : Int × Sum => p.2.breast_duration)).sum).tdiv 7
        pumping_oz := ((w.map (fun p : Int × Sum => p.2.pumping_oz)).sum) / 7
        tummy_time_duration :=
          ((w.map (fun p : Int × Sum => p.2.tummy_time_duration)).sum).tdiv 7
        max_sleep_duration :=
          ((w.map (fun p : Int × Sum => p.2.max_sleep_duration)).sum).tdiv 7
        total_sleep_duration :=
          ((w.map (fun p : Int × Sum => p.2.total_sleep_duration)).sum).tdiv 7 })
    ∧ (mean_sum diapersWindow).total_diapers = Int.tdiv 17 7
    ∧ Int.tdiv 17 7 = 2 := by
  refine ⟨?_, by decide, by decide⟩
  rw [mean_sum, windowFold_fields]
  rfl

/-- Witness for C3 at the concrete diapers window (length exactly 7). -/
theorem C3_window_mean_witness :
    diapersWindow.length = WINDOW_DAYS
    ∧ (mean_sum diapersWindow).total_diapers = Int.tdiv 17 7 :=
  ⟨by decide, (C3_window_mean_is_fieldwise_sum_div_7 diapersWindow (by decide)).2.1⟩

theorem length_windows (n : Nat) (l : List α) :
    (windows n l).length = l.length + 1 - n := by
  simp [windows]

theorem mem_windows_length {n : Nat} {l : List α} {w : List α}
    (h : w ∈ windows n l) : w.length = n := by
  simp only [windows, List.mem_map, List.mem_range] at h
  obtain ⟨i, hi, rfl⟩ := h
  simp only [List.length_take, List.length_drop]
  omega

theorem getElem?_windows {n : Nat} {l : List α} {i : Nat}
    (h : i < l.length + 1 - n) :
    (windows n l)[i]? = some ((l.drop i).take n) := by
  simp only [windows, List.getElem?_map, List.getElem?_range h]
  rfl

theorem filterMap_eq_map_of_forall_some (l : List α) (f : α → Option β)
    (g : α → β) (h : ∀ a ∈ l, f a = some (g a)) : l.filterMap f = l.map g := by
  induction l with
  | nil => rfl
  | cons a rest ih =>
    rw [List.filterMap_cons, h a (List.mem_cons_self a rest), List.map_cons,
      ih fun b hb => h b (List.mem_cons_of_mem a hb)]

/-- The label the windows loop prints for a window: the date of the window's
last entry (`window.last()`), with an irrelevant default for `[]`. -/
def windowLabel (w : List (Int × Sum)) : Int :=
  ((w.map Prod.fst).getLast?).getD 0

theorem windowLabel_of_getLast? {w : List (Int × Sum)} {p : Int × Sum}
    (h : w.getLast? = some p) : windowLabel w = p.1 := by
  rw [windowLabel, List.getLast?_map, h]
  rfl

theorem runWindows_eq_map (m : List (Int × Sum)) :
    runWindows m =
      (windows WINDOW_DAYS m).map fun w => (windowLabel w, mean_sum w) := by
  refine filterMap_eq_map_of_forall_some _ _ _ ?_
  intro w hw
  have hlen : w.length = WINDOW_DAYS := mem_windows_length hw
  have hne : w ≠ [] := by
    intro hnil
    rw [hnil] at hlen
    simp [WINDOW_DAYS] at hlen
  cases hlast : w.getLast? with
  | none => exact absurd (List.getLast?_eq_none_iff.mp hlast) hne
  | some p =>
    rw [windowLabel_of_getLast? hlast]
    rfl

theorem windowLabel_window (m : List (Int × Sum)) (i : Nat)
    (hi : i + WINDOW_DAYS ≤ m.length) :
    some (windowLabel ((m.drop i).take WINDOW_DAYS)) =
      (m.map Prod.fst)[i + (WINDOW_DAYS - 1)]? := by
  have h6 : i + (WINDOW_DAYS - 1) < m.length := by
    simp only [WINDOW_DAYS] at hi ⊢
    omega
  have hlen : ((m.drop i).take WINDOW_DAYS).length = WINDOW_DAYS := by
    simp only [List.length_take, List.length_drop]
    omega
  rw [windowLabel, List.getLast?_map, List.getLast?_eq_getElem?, hlen,
    List.getElem?_take_of_lt (show WINDOW_DAYS - 1 < WINDOW_DAYS by decide),
    List.getElem?_drop, List.getElem?_map, List.getElem?_eq_getElem h6]
  rfl

theorem runWindows_labels (m : List (Int × Sum)) :
    (runWindows m).map Prod.fst = (m.map Prod.fst).drop (WINDOW_DAYS - 1) := by
  rw [runWindows_eq_map, List.map_map]
  refine List.ext_getElem? fun i => ?_
  rw [List.getElem?_map, List.getElem?_drop]
  by_cases hi : i < m.length + 1 - WINDOW_DAYS
  · rw [getElem?_windows hi]
    have hi7 : i + WINDOW_DAYS ≤ m.length := by
      simp only [WINDOW_DAYS] at hi ⊢
      omega
    have hred : Option.map (Prod.fst ∘ fun w => (windowLabel w, mean_sum w))
        (some ((m.drop i).take WINDOW_DAYS)) =
        some (windowLabel ((m.drop i).take WINDOW_DAYS)) := rfl
    rw [hred, Nat.add_comm (WINDOW_DAYS - 1) i]
    exact windowLabel_window m i hi7
  · have h1 : (windows WINDOW_DAYS m).length ≤ i := by
      rw [length_windows]
      omega
    rw [List.getElem?_eq_none h1, List.getElem?_eq_none
      (by simp only [List.length_map, WINDOW_DAYS] at hi ⊢; omega)]
    rfl

/-- C4: the Window Averager over the Daily Map's entries in ascending date
order emits exactly one WindowMean per contiguous run of `WINDOW_DAYS = 7`
consecutive map entries (stride 1, counting entries, not calendar dates):
the output length is `entries + 1 - 7`, the i-th output pairs the date of the
i-th window's last entry with that window's mean, the label dates are the
entry dates from the 7th onward and are strictly ascending, and fewer than 7
entries produce no output at all. -/
theorem C4_one_mean_per_run_of_7_entries (m : List (Int × Sum))
    (hs : keySorted m) :
    ((runWindows m).length = m.length + 1 - WINDOW_DAYS)
    ∧ ((runWindows m).map Prod.fst = (m.map Prod.fst).drop (WINDOW_DAYS - 1))
    ∧ (∀ (i : Nat) (w : List (Int × Sum)),
        (windows WINDOW_DAYS m)[i]? = some w →
        ∃ p : Int × Sum, w.getLast? = some p ∧
          (runWindows m)[i]? = some (p.1, mean_sum w))
    ∧ List.Pairwise (fun a b : Int => a < b) ((runWindows m).map Prod.fst)
    ∧ (m.length < WINDOW_DAYS → runWindows m = []) := by
  refine ⟨?_, runWindows_labels m, ?_, ?_, ?_⟩
  · rw [runWindows_eq_map, List.length_map, length_windows]
  · intro i w hw
    have hmem : w ∈ windows WINDOW_DAYS m := List.getElem?_mem hw
    have hlen : w.length = WINDOW_DAYS := mem_windows_length hmem
    have hne : w ≠ [] := by
      intro hnil
      rw [hnil] at hlen
      simp [WINDOW_DAYS] at hlen
    cases hlast : w.getLast? with
    | none => exact absurd (List.getLast?_eq_none_iff.mp hlast) hne
    | some p =>
      refine ⟨p, rfl, ?_⟩
      have hmap : Option.map (fun w => (windowLabel w, mean_sum w)) (some w) =
          some (windowLabel w, mean_sum w) := rfl
      rw [runWindows_eq_map, List.getElem?_map, hw, hmap,
        windowLabel_of_getLast? hlast]
  · rw [runWindows_labels]
    refine List.Pairwise.sublist (List.drop_sublist _ _) ?_
    exact (List.pairwise_map).mpr hs
  · intro hlt
    rw [runWindows_eq_map]
    have h0 : m.length + 1 - WINDOW_DAYS = 0 := by omega
    simp [windows, h0]

/-- Witness for C4 on a concrete sorted 8-entry map: 2 windows are produced,
labeled by the 7th and 8th entry dates. -/
theorem C4_one_mean_per_run_witness :
    keySorted
      [((0 : Int), Sum.new), (1, Sum.new), (2, Sum.new), (3, Sum.new),
       (4, Sum.new), (5, Sum.new), (6, Sum.new), (7, Sum.new)]
    ∧ (runWindows
        [((0 : Int), Sum.new), (1, Sum.new), (2, Sum.new), (3, Sum.new),
         (4, Sum.new), (5, Sum.new), (6, Sum.new), (7, Sum.new)]).length =
      [((0 : Int), Sum.new), (1, Sum.new), (2, Sum.new), (3, Sum.new),
       (4, Sum.new), (5, Sum.new), (6, Sum.new), (7, Sum.new)].length + 1 -
        WINDOW_DAYS := by
  refine ⟨by unfold keySorted; decide, ?_⟩
  exact (C4_one_mean_per_run_of_7_entries _ (by unfold keySorted; decide)).1

/-- An entry for date `d` exists and already counts at least one session. -/
def goodAt (m : List (Int × Sum)) (d : Int) : Prop :=
  ∃ s, mapGet m d = some s ∧ 1 ≤ s.bottle_sessions

/-- The aggregation invariant behind C10: the map is a well-formed BTreeMap,
every entry's `bottle_sessions` is nonnegative, and whenever `prev_bottle` is
set its date's entry already counts at least one session. -/
def bottleInv (st : AggState) : Prop :=
  keySorted st.m
  ∧ (∀ d s, mapGet st.m d = some s → 0 ≤ s.bottle_sessions)
  ∧ (∀ t : DateTime, st.prev_bottle = some t → goodAt st.m t.date)

theorem processEvent_map_cases (st : AggState) (e : Event) :
    (processEvent st e).m = st.m ∨
    ∃ dd f, (processEvent st e).m = updateMap st.m dd f ∧
      ∀ s : Sum, s.bottle_sessions ≤ (f s).bottle_sessions := by
  cases e with
  | diaper ev =>
    exact Or.inr ⟨ev.time.date, _, rfl, fun s => by simp⟩
  | feeding ev =>
    cases ev with
    | bottle bev =>
      refine Or.inr ⟨(FeedingEvent.bottle bev).time.date, _, rfl, fun s => ?_⟩
      by_cases h : mergeCond st.prev_bottle bev.time <;> simp [h]
    | leftBreast bev =>
      exact Or.inr ⟨(FeedingEvent.leftBreast bev).time.date, _, rfl, fun s => by simp⟩
    | rightBreast bev =>
      exact Or.inr ⟨(FeedingEvent.rightBreast bev).time.date, _, rfl, fun s => by simp⟩
  | pumping ev =>
    exact Or.inr ⟨ev.start.date, _, rfl, fun s => by simp⟩
  | tummyTime ev =>
    exact Or.inr ⟨ev.start.date, _, rfl, fun s => by simp⟩
  | sleep ev =>
    cases hend : ev.end_ with
    | some dt =>
      have hupd : (processEvent st (Event.sleep ev)).m =
          updateMap st.m dt.date (fun s =>
            let s1 :=
              if ev.duration > s.max_sleep_duration then
                { s with max_sleep_duration := ev.duration }
              else s
            { s1 with total_sleep_duration :=
                s1.total_sleep_duration + ev.duration }) := by
        simp [processEvent, hend]
      refine Or.inr ⟨dt.date, _, hupd, fun s => ?_⟩
      by_cases h : ev.duration > s.max_sleep_duration <;> simp [h]
    | none =>
      exact Or.inl (by simp [processEvent, hend])
  | other t =>
    exact Or.inl rfl

theorem processEvent_prev_cases (st : AggState) (e : Event) :
    (processEvent st e).prev_bottle = st.prev_bottle ∨
    ∃ bev, e = Event.feeding (FeedingEvent.bottle bev) ∧
      (processEvent st e).prev_bottle = some bev.time := by
  cases e with
  | diaper ev => exact Or.inl rfl
  | feeding ev =>
    cases ev with
    | bottle bev => exact Or.inr ⟨bev, rfl, rfl⟩
    | leftBreast bev => exact Or.inl rfl
    | rightBreast bev => exact Or.inl rfl
  | pumping ev => exact Or.inl rfl
  | tummyTime ev => exact Or.inl rfl
  | sleep ev =>
    cases hend : ev.end_ with
    | some dt => exact Or.inl (by simp [processEvent, hend])
    | none => exact Or.inl (by simp [processEvent, hend])
  | other t => exact Or.inl rfl

theorem goodAt_updateMap (m : List (Int × Sum)) (d d' : Int) (f : Sum → Sum)
    (hm : keySorted m) (hf : ∀ s : Sum, s.bottle_sessions ≤ (f s).bottle_sessions)
    (h : goodAt m d') : goodAt (updateMap m d f) d' := by
  obtain ⟨s, hs, h1⟩ := h
  by_cases hdd : d' = d
  · subst hdd
    refine ⟨f ((mapGet m d').getD Sum.new), mapGet_updateMap_self m d' f hm, ?_⟩
    rw [hs]
    exact le_trans h1 (hf s)
  · exact ⟨s, by rw [mapGet_updateMap_ne m d d' f hdd]; exact hs, h1⟩

theorem nonneg_updateMap (m : List (Int × Sum)) (d : Int) (f : Sum → Sum)
    (hm : keySorted m)
    (hnn : ∀ d' s, mapGet m d' = some s → 0 ≤ s.bottle_sessions)
    (hf : ∀ s : Sum, s.bottle_sessions ≤ (f s).bottle_sessions) :
    ∀ d' s, mapGet (updateMap m d f) d' = some s → 0 ≤ s.bottle_sessions := by
  intro d' s hs
  by_cases hdd : d' = d
  · subst hdd
    rw [mapGet_updateMap_self m d' f hm] at hs
    injection hs with hs
    subst hs
    cases hget : mapGet m d' with
    | none =>
      simpa [Sum.new] using hf Sum.new
    | some s0 =>
      simpa using le_trans (hnn d' s0 hget) (hf s0)
  · rw [mapGet_updateMap_ne m d d' f hdd] at hs
    exact hnn d' s hs

theorem goodAt_bottle_step (st : AggState) (bev : BottleEvent)
    (h : bottleInv st) :
    goodAt (processEvent st (Event.feeding (FeedingEvent.bottle bev))).m
      bev.time.date := by
  obtain ⟨hm, hnn, hprev⟩ := h
  refine ⟨_, bottle_step_self st bev hm, ?_⟩
  by_cases hmc : mergeCond st.prev_bottle bev.time
  · simp only [hmc, if_true]
    cases hp : st.prev_bottle with
    | none => rw [hp] at hmc; exact absurd hmc (by simp [mergeCond])
    | some prev =>
      rw [hp] at hmc
      have hdate : prev.date = bev.time.date := by
        simp only [mergeCond, decide_eq_true_eq] at hmc
        exact hmc.1
      obtain ⟨s, hs, h1⟩ := hprev prev hp
      rw [hdate] at hs
      rw [hs]
      simpa using h1
  · simp only [hmc, if_false]
    cases hget : mapGet st.m bev.time.date with
    | none => simp [Sum.new]
    | some s0 =>
      have h0 := hnn _ _ hget
      simp only [Option.getD_some, Bool.false_eq_true, if_false]
      show (1 : Int) ≤ s0.bottle_sessions + 1
      omega

theorem bottleInv_processEvent (st : AggState) (e : Event)
    (h : bottleInv st) : bottleInv (processEvent st e) := by
  obtain ⟨hm, hnn, hprev⟩ := h
  refine ⟨keySorted_processEvent st e hm, ?_, ?_⟩
  · rcases processEvent_map_cases st e with hcase | ⟨dd, f, hcase, hf⟩
    · rw [hcase]; exact hnn
    · rw [hcase]; exact nonneg_updateMap st.m dd f hm hnn hf
  · intro t ht
    rcases processEvent_prev_cases st e with hp | ⟨bev, rfl, hp⟩
    · rw [hp] at ht
      have hg := hprev t ht
      rcases processEvent_map_cases st e with hcase | ⟨dd, f, hcase, hf⟩
      · rw [hcase]; exact hg
      · rw [hcase]; exact goodAt_updateMap st.m dd t.date f hm hf hg
    · rw [hp] at ht
      injection ht with ht'
      subst ht'
      exact goodAt_bottle_step st bev ⟨hm, hnn, hprev⟩

theorem goodAt_processEvent (st : AggState) (e : Event) (d : Int)
    (h : bottleInv st) (hg : goodAt st.m d) :
    goodAt (processEvent st e).m d := by
  rcases processEvent_map_cases st e with hcase | ⟨dd, f, hcase, hf⟩
  · rw [hcase]; exact hg
  · rw [hcase]; exact goodAt_updateMap st.m dd d f h.1 hf hg

theorem bottleInv_processEvents (st : AggState) (l : List Event)
    (h : bottleInv st) : bottleInv (processEvents st l) := by
  induction l generalizing st with
  | nil => exact h
  | cons e rest ih => exact ih _ (bottleInv_processEvent st e h)

theorem goodAt_processEvents (st : AggState) (l : List Event) (d : Int)
    (h : bottleInv st) (hg : goodAt st.m d) :
    goodAt (processEvents st l).m d := by
  induction l generalizing st with
  | nil => exact hg
  | cons e rest ih =>
    exact ih _ (bottleInv_processEvent st e h) (goodAt_processEvent st e d h hg)

theorem isBottleOn_iff (d : Int) (e : Event) :
    isBottleOn d e = true ↔
      ∃ bev, e = Event.feeding (FeedingEvent.bottle bev) ∧
        bev.time.date = d := by
  cases e with
  | feeding ev =>
    cases ev with
    | bottle bev => simp [isBottleOn]
    | leftBreast bev => simp [isBottleOn]
    | rightBreast bev => simp [isBottleOn]
  | diaper ev => simp [isBottleOn]
  | pumping ev => simp [isBottleOn]
  | tummyTime ev => simp [isBottleOn]
  | sleep ev => simp [isBottleOn]
  | other t => simp [isBottleOn]

theorem bottleCount_cons (e : Event) (l : List Event) (d : Int) :
    bottleCount (e :: l) d =
      bottleCount l d + (if isBottleOn d e then 1 else 0) := by
  cases h : isBottleOn d e <;>
    simp [bottleCount, List.filter_cons, h, Nat.add_comm]

theorem goodAt_of_bottleCount (st : AggState) (l : List Event) (d : Int)
    (h : bottleInv st) (hc : 0 < bottleCount l d) :
    goodAt (processEvents st l).m d := by
  induction l generalizing st with
  | nil => simp [bottleCount] at hc
  | cons e rest ih =>
    have h1 : bottleInv (processEvent st e) := bottleInv_processEvent st e h
    by_cases hb : isBottleOn d e = true
    · obtain ⟨bev, rfl, hdate⟩ := (isBottleOn_iff d e).mp hb
      subst hdate
      exact goodAt_processEvents _ rest _ h1 (goodAt_bottle_step st bev h)
    · have hc' : 0 < bottleCount rest d := by
        rw [bottleCount_cons] at hc
        simp only [Bool.not_eq_true] at hb
        rw [hb] at hc
        simpa using hc
      exact ih _ h1 hc'

theorem bottleInv_initState : bottleInv initState := by
  refine ⟨List.Pairwise.nil, ?_, ?_⟩
  · intro d s hs
    simp [initState, mapGet] at hs
  · intro t ht
    simp [initState] at ht

/-- C10: after processing any prefix of the sorted event stream, every Daily
Map entry has a nonnegative `bottle_sessions`, and every date that received
at least one bottle feeding in that prefix has an entry with
`bottle_sessions ≥ 1` (the merge decrement only fires when an earlier
same-date bottle already credited that entry). -/
theorem C10_bottle_sessions_invariant (l : List Event) (n : Nat) (d : Int) :
    (∀ s, mapGet (processEvents initState ((sortEvents l).take n)).m d =
        some s → 0 ≤ s.bottle_sessions)
    ∧ (0 < bottleCount ((sortEvents l).take n) d →
        ∃ s, mapGet (processEvents initState ((sortEvents l).take n)).m d =
          some s ∧ 1 ≤ s.bottle_sessions) := by
  constructor
  · intro s hs
    exact (bottleInv_processEvents initState _ bottleInv_initState).2.1 d s hs
  · intro hc
    exact goodAt_of_bottleCount initState _ d bottleInv_initState hc

/-- Witness for C10: one bottle on day 0; after the 1-event prefix the day's
entry exists with one counted session. -/
theorem C10_bottle_sessions_invariant_witness :
    0 < bottleCount
        ((sortEvents [Event.feeding (FeedingEvent.bottle ⟨⟨0, 0⟩, 2⟩)]).take 1) 0
    ∧ ∃ s, mapGet (processEvents initState
        ((sortEvents [Event.feeding (FeedingEvent.bottle ⟨⟨0, 0⟩, 2⟩)]).take 1)).m
          0 = some s ∧ 1 ≤ s.bottle_sessions := by
  have hsort : sortEvents [Event.feeding (FeedingEvent.bottle ⟨⟨0, 0⟩, 2⟩)] =
      [Event.feeding (FeedingEvent.bottle ⟨⟨0, 0⟩, 2⟩)] :=
    List.mergeSort_singleton _
  have hc : 0 < bottleCount
      ((sortEvents [Event.feeding (FeedingEvent.bottle ⟨⟨0, 0⟩, 2⟩)]).take 1) 0 := by
    rw [hsort]
    decide
  exact ⟨hc, (C10_bottle_sessions_invariant
    [Event.feeding (FeedingEvent.bottle ⟨⟨0, 0⟩, 2⟩)] 1 0).2 hc⟩

end Babysum
